import Mathlib

/-!
Shallow embedding of the FSL first-level design-file generator
(`Level1Design` in `nipype/interfaces/fsl/model.py`).

Conventions of the embedding:
* Python floats are modelled as rationals; every value the generator
  manipulates is an exact decimal, so nothing is lost.
* Each call to `Template.substitute` in the source is modelled as one
  constructor of `Elem`, carrying exactly the named parameters the source
  passes.  The generated document body is the list of these substitution
  calls in emission order; the literal newline characters interspersed by
  the source carry no information and are not modelled.
* Generation (`_run_interface`) and output listing (`_list_outputs`) both
  join the same working directory to every file name, so the embedding
  keeps file names relative to that directory.
* Python `str.endswith` / `str.split` are modelled on the character lists
  of the strings (`pyEndsWith` / `pySplit`); the built-in `String`
  operations of the proof library do not evaluate inside the kernel.
-/

namespace Level1Design

/-- Python `s.endswith(t)`. -/
def pyEndsWith (s t : String) : Bool :=
  t.data.isSuffixOf s.data

/-- Python `s.split(sep)` for a single separator character. -/
def pySplit (sep : Char) (s : String) : List String :=
  (s.data.splitOn sep).map (fun cs => String.mk cs)

/-- One entry of `runinfo['cond']`: an experimental condition with its
event onsets and durations (the `duration` list holds either one shared
value or one value per onset). -/
structure Cond where
  name : String
  onset : List ℚ
  duration : List ℚ
deriving DecidableEq

/-- One entry of `runinfo['regress']`: a nuisance regressor with one
scalar value per timepoint. -/
structure Regress where
  name : String
  val : List ℚ
deriving DecidableEq

/-- The per-run session information consumed by `_create_ev_files` and
`_run_interface`: condition list, regressor list, high-pass cutoff and
the `scans` entries (the first of which names the functional image). -/
structure RunInfo where
  cond : List Cond
  regress : List Regress
  hpf : ℚ
  scans : List String
deriving DecidableEq

/-- A contrast tuple `(name, kind, condition-name list, weight list)` as
stored in `inputs.contrasts`.  `conds` is `con[2]` and `weights` is
`con[3]`.  For an F contrast the source keeps nested T-contrast tuples in
`con[2]`; those tuples never compare equal to an EV name string, which is
the only use the body makes of `con[2]`, so the embedding keeps a string
list there. -/
structure Contrast where
  name : String
  kind : String
  conds : List String
  weights : List ℚ
deriving DecidableEq

/-- One line written by `_create_ev_file`: either the three
space-separated fields `onset duration amplitude` (the `len(i) == 3`
branch) or the single field `i[0]`. -/
inductive EvLine where
  | fields3 (onset duration amplitude : ℚ)
  | fields1 (value : ℚ)
deriving DecidableEq

/-- `_create_ev_file`: serialize the rows of `evinfo`.  A row of length 3
is written as three fields, any other row as its first entry alone (the
generator only ever builds rows of length 3 or 1, so the head exists). -/
def createEvFile (evinfo : List (List ℚ)) : List EvLine :=
  evinfo.map (fun i =>
    match i with
    | [a, b, c] => EvLine.fields3 a b c
    | i => EvLine.fields1 i.headI)

/-- The `evinfo` rows built for a condition: row `j` is
`[onset[j], duration[j], 1]` when more than one duration is given and
`[onset[j], duration[0], 1]` otherwise (`evinfo.insert(j, ...)` with `j`
increasing builds the rows in onset order). -/
def condEvinfo (cond : Cond) : List (List ℚ) :=
  cond.onset.enum.map (fun ji =>
    if cond.duration.length > 1 then [ji.2, cond.duration.getD ji.1 0, 1]
    else [ji.2, cond.duration.getD 0 0, 1])

/-- The `evinfo` rows built for a regressor: `[[j] for j in cond['val']]`. -/
def regressEvinfo (reg : Regress) : List (List ℚ) :=
  reg.val.map (fun j => [j])

/-- The timing-file name `'ev_%s_%d_%d.txt' % (name, runidx, ordinal)`,
relative to the working directory. -/
def evFname (name : String) (runidx ordinal : ℕ) : String :=
  "ev_" ++ name ++ "_" ++ toString runidx ++ "_" ++ toString ordinal ++ ".txt"

/-- One `Template.substitute` call of `_create_ev_files`, with the named
parameters the source passes to it. -/
inductive Elem where
  | evHrf (ev_num : ℕ) (ev_name : String) (temporalderiv : ℕ) (cond_file : String)
  | evNone (ev_num : ℕ) (ev_name : String) (cond_file : String)
  | ortho (c0 c1 : ℕ)
  | contrastHeader
  | contrastProlog (cnum : ℕ) (ctype : String) (cname : String)
  | contrastElement (cnum element : ℕ) (ctype : String) (val : ℚ)
  | maskHeader
  | maskElement (c1 c2 : ℕ)
  | maskFooter
deriving DecidableEq

/-- The mutable locals of the EV-generation loop of `_create_ev_files`:
`evname`, the two counters `num_evs[0]` / `num_evs[1]`, the text emitted
so far and the timing files written so far (name and content). -/
structure EVState where
  evname : List String
  numEvs0 : ℕ
  numEvs1 : ℕ
  txt : List Elem
  files : List (String × List EvLine)
deriving DecidableEq

/-- One iteration of the EV loop for a `'cond'` entry: append the name,
derive the file name from the current `len(evname)`, bump both counters,
emit the HRF block, and when `usetd` is nonzero also append the
derivative name `name + 'TD'` and bump `num_evs[1]` once more. -/
def condStep (runidx usetd : ℕ) (st : EVState) (cond : Cond) : EVState :=
  let evname := st.evname ++ [cond.name]
  let evfname := evFname cond.name runidx evname.length
  let num0 := st.numEvs0 + 1
  let num1 := st.numEvs1 + 1
  { evname := if usetd ≠ 0 then evname ++ [cond.name ++ "TD"] else evname
    numEvs0 := num0
    numEvs1 := if usetd ≠ 0 then num1 + 1 else num1
    txt := st.txt ++ [Elem.evHrf num0 cond.name usetd evfname]
    files := st.files ++ [(evfname, createEvFile (condEvinfo cond))] }

/-- One iteration of the EV loop for a `'regress'` entry. -/
def regressStep (runidx : ℕ) (st : EVState) (reg : Regress) : EVState :=
  let evname := st.evname ++ [reg.name]
  let evfname := evFname reg.name runidx evname.length
  { evname := evname
    numEvs0 := st.numEvs0 + 1
    numEvs1 := st.numEvs1 + 1
    txt := st.txt ++ [Elem.evNone (st.numEvs0 + 1) reg.name evfname]
    files := st.files ++ [(evfname, createEvFile (regressEvinfo reg))] }

/-- The state after the `for field in ['cond', 'regress']` loop of
`_create_ev_files`, starting from empty locals. -/
def evState (runidx usetd : ℕ) (runinfo : RunInfo) : EVState :=
  runinfo.regress.foldl (regressStep runidx)
    (runinfo.cond.foldl (condStep runidx usetd) ⟨[], 0, 0, [], []⟩)

/-- The weight the body computes for an EV column:
`con[3][con[2].index(name)]` when `name in con[2]`, else `0.0`. -/
def conVal (con : Contrast) (name : String) : ℚ :=
  if name ∈ con.conds then con.weights.getD (List.indexOf name con.conds) 0
  else 0

/-- The inner column loop of the contrast section, carrying the running
`count` of emitted elements: a column is skipped when its EV name ends in
`'TD'` and the pass is `'orig'`; otherwise one `contrast_element` is
emitted with the incremented count. -/
def contrastElemsFrom (ctype : String) (cnum : ℕ) (con : Contrast) :
    ℕ → List String → List Elem
  | _, [] => []
  | count, name :: rest =>
    if pyEndsWith name "TD" && ctype == "orig" then
      contrastElemsFrom ctype cnum con count rest
    else
      Elem.contrastElement cnum (count + 1) ctype (conVal con name) ::
        contrastElemsFrom ctype cnum con (count + 1) rest

/-- The weight elements emitted for one contrast in one pass
(`count` starts at 0 for every contrast). -/
def contrastElems (evname : List String) (ctype : String) (cnum : ℕ)
    (con : Contrast) : List Elem :=
  contrastElemsFrom ctype cnum con 0 evname

/-- The `for j, con in enumerate(contrasts)` loop of one contrast pass,
with `j` made explicit: prolog with `cnum = j + 1`, then the weight
elements for that contrast. -/
def contrastPassFrom (evname : List String) (ctype : String) :
    ℕ → List Contrast → List Elem
  | _, [] => []
  | j, con :: rest =>
    (Elem.contrastProlog (j + 1) ctype con.name ::
      contrastElems evname ctype (j + 1) con) ++
      contrastPassFrom evname ctype (j + 1) rest

/-- The contrast section: header, then the `'real'` pass over all
contrasts, then the `'orig'` pass (the source iterates
`for ctype in ['real', 'orig']`). -/
def contrastSection (evname : List String) (contrasts : List Contrast) :
    List Elem :=
  Elem.contrastHeader ::
    (contrastPassFrom evname "real" 0 contrasts ++
      contrastPassFrom evname "orig" 0 contrasts)

/-- The orthogonalization table:
`for i in range(1, num_evs[0] + 1): for j in range(0, num_evs[0] + 1)`. -/
def orthoSection (numEvs0 : ℕ) : List Elem :=
  (List.range' 1 numEvs0).flatMap (fun i =>
    (List.range (numEvs0 + 1)).map (fun j => Elem.ortho i j))

/-- The contrast-mask section: header, one element per ordered pair of
distinct contrast positions, footer. -/
def maskSection (contrasts : List Contrast) : List Elem :=
  Elem.maskHeader ::
    ((List.range contrasts.length).flatMap (fun j =>
      (List.range contrasts.length).filterMap (fun k =>
        if j ≠ k then some (Elem.maskElement (j + 1) (k + 1)) else none)) ++
      [Elem.maskFooter])

/-- `_create_ev_files`: the returned `(num_evs, ev_txt)` pair together
with the timing files written, for one run. -/
def createEvFiles (runidx usetd : ℕ) (contrasts : List Contrast)
    (runinfo : RunInfo) :
    (ℕ × ℕ) × List Elem × List (String × List EvLine) :=
  let st := evState runidx usetd runinfo
  ((st.numEvs0, st.numEvs1),
    st.txt ++ orthoSection st.numEvs0 ++
      contrastSection st.evname contrasts ++ maskSection contrasts,
    st.files)

/-- The timing-file names `_list_outputs` re-derives for one run: it
walks conditions then regressors appending only the primary names to its
local `evname`, so the ordinal is the 1-based position in that list. -/
def listEvFiles (runno : ℕ) (runinfo : RunInfo) : List String :=
  ((runinfo.cond.map Cond.name ++ runinfo.regress.map Regress.name).enum).map
    (fun kn => evFname kn.2 runno (kn.1 + 1))

/-- `_list_outputs`: the `(fsf_files, ev_files)` pair re-derived from the
session information, relative to the working directory. -/
def listOutputs (session_info : List RunInfo) : List String × List String :=
  (session_info.enum.map (fun ir => "run" ++ toString ir.1 ++ ".fsf"),
    session_info.enum.flatMap (fun ir => listEvFiles ir.1 ir.2))

/-- The `n_tcon` / `n_fcon` loop of `_run_interface`: contrasts of kind
`'T'` and `'F'` bump the respective counter; any other kind only prints a
warning and is counted in neither. -/
def conCounts (contrasts : List Contrast) : ℕ × ℕ :=
  contrasts.foldl (fun acc c =>
    if c.kind = "T" then (acc.1 + 1, acc.2)
    else if c.kind = "F" then (acc.1, acc.2 + 1)
    else acc) (0, 0)

/-- The result of the `FSLInfo.standard_image` collaborator for the
standard reference volume the source requests. -/
def standardImage : String := "MNI152_T1_2mm_brain.nii.gz"

/-- The inputs of `Level1Design` after trait validation.  `session_info`
stands for the list `_get_session_info` loads from the session file;
`bases_key` / `bases_derivs` model the one-key basis dictionary;
optional traits are `Option` (`none` = trait left undefined). -/
structure Inputs where
  interscan_interval : ℚ
  session_info : List RunInfo
  bases_key : String
  bases_derivs : Bool
  model_serial_correlations : Option String
  contrasts : List Contrast
  register : Option Bool
  reg_image : Option String
  reg_dof : ℕ
deriving DecidableEq

/-- The named parameters `_run_interface` passes to the
`feat_header_l1.tcl` template for one run. -/
structure FsfHeader where
  run_num : ℕ
  interscan_interval : ℚ
  num_vols : ℕ
  prewhiten : ℕ
  num_evs : ℕ
  num_evs_real : ℕ
  num_tcon : ℕ
  num_fcon : ℕ
  high_pass_filter_cutoff : ℚ
  func_file : String
  register : ℕ
  reg_image : String
  reg_dof : ℕ
deriving DecidableEq

/-- One generated design document: its file name `run<i>.fsf`, the header
parameters, the body produced by `_create_ev_files` and the `overwrite`
value of the closing `feat_nongui.tcl` block. -/
structure FsfDoc where
  file : String
  header : FsfHeader
  body : List Elem
  overwrite : ℕ
deriving DecidableEq

/-- `_run_interface`.  `timepointsOf` is the image-reading collaborator
returning the fourth shape component of the functional image.  The
registration locals are only assigned inside `if isdefined(register)`, so
when the `register` trait is undefined the first loop iteration reads the
unassigned local while filling the header and Python raises; that raise
is the `Except.error` branch. -/
def runInterface (timepointsOf : String → ℕ) (inputs : Inputs) :
    Except String (List FsfDoc) :=
  let prewhiten : ℕ :=
    match inputs.model_serial_correlations with
    | some v => if v = "AR(1)" then 1 else 0
    | none => 0
  let usetd : ℕ :=
    if inputs.bases_key = "dgamma" ∨ inputs.bases_key = "gamma" then
      (if inputs.bases_derivs then 1 else 0)
    else 0
  let func_files := inputs.session_info.map (fun info =>
    (pySplit ',' info.scans.headI).headI)
  let counts := conCounts inputs.contrasts
  let reg : Option (ℕ × String × ℕ) :=
    match inputs.register with
    | none => none
    | some b =>
      if b then
        some (1, (match inputs.reg_image with
                  | some im => im
                  | none => standardImage), inputs.reg_dof)
      else some (0, "", 0)
  inputs.session_info.enum.mapM (fun iinfo =>
    let i := iinfo.1
    let info := iinfo.2
    let res := createEvFiles i usetd inputs.contrasts info
    match reg with
    | none => Except.error "UnboundLocalError: register referenced before assignment"
    | some r =>
      Except.ok
        { file := "run" ++ toString i ++ ".fsf"
          header :=
            { run_num := i
              interscan_interval := inputs.interscan_interval
              num_vols := timepointsOf (func_files.getD i "")
              prewhiten := prewhiten
              num_evs := res.1.1
              num_evs_real := res.1.2
              num_tcon := counts.1
              num_fcon := counts.2
              high_pass_filter_cutoff := info.hpf
              func_file := func_files.getD i ""
              register := r.1
              reg_image := r.2.1
              reg_dof := r.2.2 }
          body := res.2.1
          overwrite := 1 })

/-! ### Derived notions used by the statements -/

/-- The EV columns the contrast element loop retains in a pass: all of
them, except that a name ending in `'TD'` is skipped in the `'orig'`
pass. -/
def retainedCols (evname : List String) (ctype : String) : List String :=
  evname.filter (fun name => !(pyEndsWith name "TD" && ctype == "orig"))

/-- Recognizer for orthogonalization directives. -/
def isOrtho : Elem → Bool
  | .ortho _ _ => true
  | _ => false

/-- Recognizer for contrast-mask elements. -/
def isMaskElement : Elem → Bool
  | .maskElement _ _ => true
  | _ => false

/-- Recognizer for contrast prologs. -/
def isProlog : Elem → Bool
  | .contrastProlog _ _ _ => true
  | _ => false

/-! ### Structure of the contrast element loop -/

/-- The element loop emits exactly one `contrast_element` per retained
column, numbering them consecutively from `count + 1`. -/
theorem contrastElemsFrom_eq_map (ctype : String) (cnum : ℕ) (con : Contrast) :
    ∀ (evname : List String) (count : ℕ),
      contrastElemsFrom ctype cnum con count evname =
        (List.enumFrom count (retainedCols evname ctype)).map
          (fun kn => Elem.contrastElement cnum (kn.1 + 1) ctype (conVal con kn.2))
  | [], _ => by simp [contrastElemsFrom, retainedCols]
  | name :: rest, count => by
    have ih := contrastElemsFrom_eq_map ctype cnum con rest
    cases h1 : pyEndsWith name "TD" <;> cases h2 : (ctype == "orig") <;>
      simp [contrastElemsFrom, retainedCols, List.filter_cons, h1, h2,
        List.enumFrom_cons, ih count, ih (count + 1)]

theorem contrastElems_eq_map (evname : List String) (ctype : String)
    (cnum : ℕ) (con : Contrast) :
    contrastElems evname ctype cnum con =
      (List.enumFrom 0 (retainedCols evname ctype)).map
        (fun kn => Elem.contrastElement cnum (kn.1 + 1) ctype (conVal con kn.2)) :=
  contrastElemsFrom_eq_map ctype cnum con evname 0

theorem contrastElems_length (evname : List String) (ctype : String)
    (cnum : ℕ) (con : Contrast) :
    (contrastElems evname ctype cnum con).length =
      (retainedCols evname ctype).length := by
  rw [contrastElems_eq_map]
  simp [List.enumFrom_length]

/-- In the `'real'` pass no column is skipped. -/
theorem retainedCols_real (evname : List String) :
    retainedCols evname "real" = evname := by
  have h : ("real" == "orig") = false := by decide
  simp [retainedCols, h]

/-- In the `'orig'` pass exactly the `'TD'`-suffixed columns are
skipped. -/
theorem retainedCols_orig (evname : List String) :
    retainedCols evname "orig" =
      evname.filter (fun name => !(pyEndsWith name "TD")) := by
  have h : ("orig" == "orig") = true := by decide
  simp [retainedCols, h]

/-! ### Effect of the EV-generation loop on its locals -/

/-- The EV names the loop accumulates: each condition contributes its
name, plus the `'TD'` name when derivatives are on; each regressor
contributes its name. -/
def evnames (usetd : ℕ) (runinfo : RunInfo) : List String :=
  runinfo.cond.flatMap
      (fun c => c.name :: (if usetd ≠ 0 then [c.name ++ "TD"] else [])) ++
    runinfo.regress.map Regress.name

theorem foldl_condStep_numEvs0 (r u : ℕ) :
    ∀ (cs : List Cond) (st : EVState),
      (cs.foldl (condStep r u) st).numEvs0 = st.numEvs0 + cs.length
  | [], st => by simp
  | c :: rest, st => by
    simp [List.foldl_cons, foldl_condStep_numEvs0 r u rest, condStep]
    omega

theorem foldl_condStep_numEvs1 (r u : ℕ) :
    ∀ (cs : List Cond) (st : EVState),
      (cs.foldl (condStep r u) st).numEvs1 =
        st.numEvs1 + cs.length * (if u ≠ 0 then 2 else 1)
  | [], st => by simp
  | c :: rest, st => by
    by_cases hu : u ≠ 0 <;>
      simp [List.foldl_cons, foldl_condStep_numEvs1 r u rest, condStep, hu] <;>
      omega

theorem foldl_condStep_evname (r u : ℕ) :
    ∀ (cs : List Cond) (st : EVState),
      (cs.foldl (condStep r u) st).evname =
        st.evname ++ cs.flatMap
          (fun c => c.name :: (if u ≠ 0 then [c.name ++ "TD"] else []))
  | [], st => by simp
  | c :: rest, st => by
    by_cases hu : u ≠ 0 <;>
      simp [List.foldl_cons, foldl_condStep_evname r u rest, condStep, hu]

theorem foldl_regressStep_numEvs0 (r : ℕ) :
    ∀ (rs : List Regress) (st : EVState),
      (rs.foldl (regressStep r) st).numEvs0 = st.numEvs0 + rs.length
  | [], st => by simp
  | c :: rest, st => by
    simp [List.foldl_cons, foldl_regressStep_numEvs0 r rest, regressStep]
    omega

theorem foldl_regressStep_numEvs1 (r : ℕ) :
    ∀ (rs : List Regress) (st : EVState),
      (rs.foldl (regressStep r) st).numEvs1 = st.numEvs1 + rs.length
  | [], st => by simp
  | c :: rest, st => by
    simp [List.foldl_cons, foldl_regressStep_numEvs1 r rest, regressStep]
    omega

theorem foldl_regressStep_evname (r : ℕ) :
    ∀ (rs : List Regress) (st : EVState),
      (rs.foldl (regressStep r) st).evname =
        st.evname ++ rs.map Regress.name
  | [], st => by simp
  | c :: rest, st => by
    simp [List.foldl_cons, foldl_regressStep_evname r rest, regressStep]

theorem evState_numEvs0 (r u : ℕ) (runinfo : RunInfo) :
    (evState r u runinfo).numEvs0 =
      runinfo.cond.length + runinfo.regress.length := by
  simp [evState, foldl_regressStep_numEvs0, foldl_condStep_numEvs0]

theorem evState_numEvs1 (r u : ℕ) (runinfo : RunInfo) :
    (evState r u runinfo).numEvs1 =
      runinfo.cond.length * (if u ≠ 0 then 2 else 1) +
        runinfo.regress.length := by
  simp [evState, foldl_regressStep_numEvs1, foldl_condStep_numEvs1]

theorem evState_evname (r u : ℕ) (runinfo : RunInfo) :
    (evState r u runinfo).evname = evnames u runinfo := by
  simp [evState, foldl_regressStep_evname, foldl_condStep_evname, evnames]

/-- With derivatives off, the EV names are exactly the user-declared
condition and regressor names, in order. -/
theorem evnames_zero (runinfo : RunInfo) :
    evnames 0 runinfo =
      runinfo.cond.map Cond.name ++ runinfo.regress.map Regress.name := by
  simp only [evnames, ne_eq, not_true_eq_false, if_false]
  congr 1
  induction runinfo.cond with
  | nil => rfl
  | cons c rest ih => simp [ih]

theorem flatMap_name_singleton (cs : List Cond) :
    (cs.flatMap fun c => [c.name]) = cs.map Cond.name := by
  induction cs with
  | nil => rfl
  | cons c rest ih => simp [ih]

/-- With derivatives off, the timing-file names written by the condition
loop are numbered by the running length of `evname`. -/
theorem foldl_condStep_files_zero (r : ℕ) :
    ∀ (cs : List Cond) (st : EVState),
      (cs.foldl (condStep r 0) st).files.map Prod.fst =
        st.files.map Prod.fst ++
          (List.enumFrom st.evname.length (cs.map Cond.name)).map
            (fun kn => evFname kn.2 r (kn.1 + 1))
  | [], st => by simp
  | c :: rest, st => by
    have ih := foldl_condStep_files_zero r rest (condStep r 0 st c)
    simp only [List.foldl_cons] at *
    rw [ih]
    simp [condStep, List.enumFrom_cons]

theorem foldl_regressStep_files (r : ℕ) :
    ∀ (rs : List Regress) (st : EVState),
      (rs.foldl (regressStep r) st).files.map Prod.fst =
        st.files.map Prod.fst ++
          (List.enumFrom st.evname.length (rs.map Regress.name)).map
            (fun kn => evFname kn.2 r (kn.1 + 1))
  | [], st => by simp
  | c :: rest, st => by
    have ih := foldl_regressStep_files r rest (regressStep r st c)
    simp only [List.foldl_cons] at *
    rw [ih]
    simp [regressStep, List.enumFrom_cons]

/-- With derivatives off, generation writes exactly the timing-file names
that `_list_outputs` re-derives. -/
theorem evState_files_zero (r : ℕ) (runinfo : RunInfo) :
    (evState r 0 runinfo).files.map Prod.fst = listEvFiles r runinfo := by
  rw [evState, foldl_regressStep_files, foldl_condStep_files_zero]
  have hev := foldl_condStep_evname r 0 runinfo.cond ⟨[], 0, 0, [], []⟩
  simp only [ne_eq, not_true_eq_false, if_false, flatMap_name_singleton] at hev
  rw [hev]
  simp [listEvFiles, List.enum, List.enumFrom_append]

/-! ### Shape of the EV text blocks -/

theorem foldl_condStep_txt_countP (r u : ℕ) (p : Elem → Bool)
    (hp : ∀ a b c d, p (Elem.evHrf a b c d) = false) :
    ∀ (cs : List Cond) (st : EVState),
      ((cs.foldl (condStep r u) st).txt).countP p = st.txt.countP p
  | [], st => by simp
  | c :: rest, st => by
    have ih := foldl_condStep_txt_countP r u p hp rest (condStep r u st c)
    simp only [List.foldl_cons] at *
    rw [ih]
    simp [condStep, List.countP_append, hp]

theorem foldl_regressStep_txt_countP (r : ℕ) (p : Elem → Bool)
    (hp : ∀ a b c, p (Elem.evNone a b c) = false) :
    ∀ (rs : List Regress) (st : EVState),
      ((rs.foldl (regressStep r) st).txt).countP p = st.txt.countP p
  | [], st => by simp
  | c :: rest, st => by
    have ih := foldl_regressStep_txt_countP r p hp rest (regressStep r st c)
    simp only [List.foldl_cons] at *
    rw [ih]
    simp [regressStep, List.countP_append, hp]

theorem evState_txt_countP (r u : ℕ) (runinfo : RunInfo) (p : Elem → Bool)
    (hp1 : ∀ a b c d, p (Elem.evHrf a b c d) = false)
    (hp2 : ∀ a b c, p (Elem.evNone a b c) = false) :
    ((evState r u runinfo).txt).countP p = 0 := by
  rw [evState, foldl_regressStep_txt_countP r p hp2,
    foldl_condStep_txt_countP r u p hp1]
  rfl

/-! ### Counting the orthogonalization table -/

theorem sum_map_constant (c : ℕ) :
    ∀ (l : List ℕ), (l.map (fun _ => c)).sum = l.length * c
  | [] => by simp
  | a :: t => by simp [sum_map_constant c t, Nat.succ_mul, Nat.add_comm]

theorem sum_map_ite_count (i c : ℕ) :
    ∀ (l : List ℕ), (l.map (fun a => if a = i then c else 0)).sum = c * l.count i
  | [] => by simp
  | a :: t => by
    by_cases h : a = i
    · simp [h, sum_map_ite_count i c t, List.count_cons, Nat.mul_succ]
      ring
    · simp [h, sum_map_ite_count i c t, List.count_cons]

theorem count_range (j n : ℕ) :
    (List.range n).count j = if j < n then 1 else 0 := by
  induction n with
  | zero => simp
  | succ n ih =>
    rw [List.range_succ, List.count_append, ih]
    have h : List.count j [n] = if n = j then 1 else 0 := by
      simp [List.count_cons]
    rw [h]
    split_ifs <;> omega

theorem count_range_one (i n : ℕ) :
    (List.range' 1 n).count i = if 1 ≤ i ∧ i ≤ n then 1 else 0 := by
  induction n with
  | zero =>
    rw [if_neg (by omega)]
    rfl
  | succ n ih =>
    rw [List.range'_concat, List.count_append, ih]
    simp only [List.count_cons, List.count_nil, beq_iff_eq]
    split_ifs <;> omega

theorem count_ortho_row (n i j i' : ℕ) :
    ((List.range (n + 1)).map (fun jj => Elem.ortho i' jj)).count
        (Elem.ortho i j) = if i' = i ∧ j ≤ n then 1 else 0 := by
  by_cases h : i' = i
  · subst h
    have hinj : Function.Injective (fun jj => Elem.ortho i' jj) := by
      intro a b hab
      simpa [Elem.ortho.injEq] using hab
    rw [List.count_map_of_injective _ _ hinj, count_range]
    split_ifs <;> omega
  · have hnot : Elem.ortho i j ∉
        (List.range (n + 1)).map (fun jj => Elem.ortho i' jj) := by
      intro hmem
      obtain ⟨a, _, heq⟩ := List.mem_map.mp hmem
      simp only [Elem.ortho.injEq] at heq
      exact h heq.1
    have hnot2 : ¬(i' = i ∧ j ≤ n) := fun hc => h hc.1
    rw [List.count_eq_zero_of_not_mem hnot, if_neg hnot2]

theorem length_orthoSection (n : ℕ) :
    (orthoSection n).length = n * (n + 1) := by
  rw [orthoSection, List.length_flatMap]
  have h : ∀ a ∈ List.range' 1 n,
      (List.length ∘ fun i =>
        (List.range (n + 1)).map (fun j => Elem.ortho i j)) a =
      (fun _ => n + 1) a := fun a _ => by simp
  rw [List.map_congr_left h, sum_map_constant, List.length_range']

theorem countP_isOrtho_orthoSection (n : ℕ) :
    (orthoSection n).countP isOrtho = n * (n + 1) := by
  rw [← length_orthoSection n]
  apply List.countP_eq_length.mpr
  intro e he
  obtain ⟨a, _, he2⟩ := List.mem_flatMap.mp he
  obtain ⟨b, _, rfl⟩ := List.mem_map.mp he2
  rfl

theorem count_ortho_orthoSection (n i j : ℕ) :
    (orthoSection n).count (Elem.ortho i j) =
      if 1 ≤ i ∧ i ≤ n ∧ j ≤ n then 1 else 0 := by
  rw [orthoSection, List.count_flatMap]
  have h1 : ∀ a ∈ List.range' 1 n,
      (List.count (Elem.ortho i j) ∘ fun i' =>
        (List.range (n + 1)).map (fun jj => Elem.ortho i' jj)) a =
      (fun a => if a = i ∧ j ≤ n then 1 else 0) a :=
    fun a _ => by rw [Function.comp_apply, count_ortho_row]
  rw [List.map_congr_left h1]
  by_cases hj : j ≤ n
  · have h2 : ∀ a ∈ List.range' 1 n,
        (fun a => if a = i ∧ j ≤ n then 1 else 0) a =
        (fun a => if a = i then 1 else 0) a := fun a _ => by simp [hj]
    rw [List.map_congr_left h2, sum_map_ite_count, count_range_one, one_mul]
    split_ifs <;> omega
  · have h2 : ∀ a ∈ List.range' 1 n,
        (fun a => if a = i ∧ j ≤ n then 1 else 0) a =
        (fun _ => (0 : ℕ)) a := fun a _ => by simp [hj]
    rw [List.map_congr_left h2, if_neg (by tauto), sum_map_constant]
    simp

/-! ### Shapes of the contrast and mask sections -/

theorem mem_contrastElems_shape (evname : List String) (ctype : String)
    (cnum : ℕ) (con : Contrast) (e : Elem)
    (he : e ∈ contrastElems evname ctype cnum con) :
    ∃ b v, e = Elem.contrastElement cnum b ctype v := by
  rw [contrastElems_eq_map] at he
  obtain ⟨kn, _, rfl⟩ := List.mem_map.mp he
  exact ⟨kn.1 + 1, conVal con kn.2, rfl⟩

theorem mem_contrastPassFrom_shape (evname : List String) (ctype : String) :
    ∀ (L : List Contrast) (j : ℕ) (e : Elem),
      e ∈ contrastPassFrom evname ctype j L →
      (∃ a b, e = Elem.contrastProlog a ctype b) ∨
        (∃ a b v, e = Elem.contrastElement a b ctype v)
  | [], _, e, he => by simp [contrastPassFrom] at he
  | con :: rest, j, e, he => by
    rw [contrastPassFrom] at he
    rcases List.mem_append.mp he with h1 | h2
    · rcases List.mem_cons.mp h1 with h3 | h4
      · exact Or.inl ⟨j + 1, con.name, h3⟩
      · obtain ⟨b, v, rfl⟩ := mem_contrastElems_shape evname ctype (j + 1) con e h4
        exact Or.inr ⟨j + 1, b, v, rfl⟩
    · exact mem_contrastPassFrom_shape evname ctype rest (j + 1) e h2

theorem mem_contrastSection_shape (evname : List String)
    (contrasts : List Contrast) (e : Elem)
    (he : e ∈ contrastSection evname contrasts) :
    e = Elem.contrastHeader ∨
      (∃ a c b, e = Elem.contrastProlog a c b) ∨
      (∃ a b c v, e = Elem.contrastElement a b c v) := by
  rw [contrastSection] at he
  rcases List.mem_cons.mp he with h1 | h2
  · exact Or.inl h1
  · rcases List.mem_append.mp h2 with h3 | h3 <;>
    · rcases mem_contrastPassFrom_shape evname _ contrasts 0 e h3 with
        ⟨a, b, rfl⟩ | ⟨a, b, v, rfl⟩
      · exact Or.inr (Or.inl ⟨a, _, b, rfl⟩)
      · exact Or.inr (Or.inr ⟨a, b, _, v, rfl⟩)

theorem mem_maskSection_shape (contrasts : List Contrast) (e : Elem)
    (he : e ∈ maskSection contrasts) :
    e = Elem.maskHeader ∨ e = Elem.maskFooter ∨
      ∃ a b, e = Elem.maskElement a b := by
  rw [maskSection] at he
  rcases List.mem_cons.mp he with h1 | h2
  · exact Or.inl h1
  rcases List.mem_append.mp h2 with h3 | h4
  · obtain ⟨a, _, h5⟩ := List.mem_flatMap.mp h3
    obtain ⟨b, _, h6⟩ := List.mem_filterMap.mp h5
    by_cases hab : a ≠ b
    · rw [if_pos hab] at h6
      exact Or.inr (Or.inr ⟨a + 1, b + 1, (Option.some_inj.mp h6).symm⟩)
    · rw [if_neg hab] at h6
      exact absurd h6 (Option.noConfusion)
  · rcases List.mem_singleton.mp h4 with rfl
    exact Or.inr (Or.inl rfl)

/-! ### Counting the contrast-mask section -/

theorem length_maskRow (j : ℕ) :
    ∀ (l : List ℕ),
      (l.filterMap (fun k =>
        if j ≠ k then some (Elem.maskElement (j + 1) (k + 1)) else none)).length
      = l.length - l.count j
  | [] => by simp
  | a :: t => by
    have ih := length_maskRow j t
    have hle := List.count_le_length j t
    by_cases h : j = a
    · have hstep : List.filterMap (fun k =>
          if j ≠ k then some (Elem.maskElement (j + 1) (k + 1)) else none)
          (a :: t) = List.filterMap (fun k =>
          if j ≠ k then some (Elem.maskElement (j + 1) (k + 1)) else none) t := by
        rw [List.filterMap_cons, if_neg (not_not_intro h)]
      subst h
      rw [hstep, ih, List.length_cons, List.count_cons]
      simp only [beq_self_eq_true, if_true]
      omega
    · have hstep : List.filterMap (fun k =>
          if j ≠ k then some (Elem.maskElement (j + 1) (k + 1)) else none)
          (a :: t) = Elem.maskElement (j + 1) (a + 1) :: List.filterMap (fun k =>
          if j ≠ k then some (Elem.maskElement (j + 1) (k + 1)) else none) t := by
        rw [List.filterMap_cons, if_pos h]
      have hba : (a == j) = false := by
        simp only [beq_eq_false_iff_ne, ne_eq]
        exact fun hc => h hc.symm
      rw [hstep, List.length_cons, ih, List.length_cons, List.count_cons, hba]
      simp only [Bool.false_eq_true, if_false]
      omega

theorem countP_isMaskElement_maskSection (contrasts : List Contrast) :
    (maskSection contrasts).countP isMaskElement =
      contrasts.length * (contrasts.length - 1) := by
  rw [maskSection]
  rw [List.countP_cons]
  rw [List.countP_append]
  have hfoot : List.countP isMaskElement [Elem.maskFooter] = 0 := by rfl
  rw [hfoot]
  have hbody : ∀ (body : List Elem),
      (∀ e ∈ body, isMaskElement e = true) →
      body.countP isMaskElement = body.length :=
    fun body hb => List.countP_eq_length.mpr hb
  rw [hbody _ ?hmem]
  case hmem =>
    intro e he
    obtain ⟨a, _, h5⟩ := List.mem_flatMap.mp he
    obtain ⟨b, _, h6⟩ := List.mem_filterMap.mp h5
    by_cases hab : a ≠ b
    · rw [if_pos hab] at h6
      rw [← Option.some_inj.mp h6]
      rfl
    · rw [if_neg hab] at h6
      exact absurd h6 (Option.noConfusion)
  rw [List.length_flatMap]
  have h : ∀ a ∈ List.range contrasts.length,
      (List.length ∘ fun j => (List.range contrasts.length).filterMap
        (fun k => if j ≠ k then some (Elem.maskElement (j + 1) (k + 1)) else none)) a =
      (fun _ => contrasts.length - 1) a := by
    intro a ha
    rw [Function.comp_apply, length_maskRow, count_range,
      if_pos (List.mem_range.mp ha), List.length_range]
  rw [List.map_congr_left h, sum_map_constant, List.length_range]
  rfl

/-! ### The header contrast counts -/

theorem conCounts_foldl :
    ∀ (L : List Contrast) (a b : ℕ),
      L.foldl (fun acc c =>
        if c.kind = "T" then (acc.1 + 1, acc.2)
        else if c.kind = "F" then (acc.1, acc.2 + 1)
        else acc) (a, b) =
      (a + L.countP (fun c => c.kind == "T"),
        b + L.countP (fun c => c.kind == "F"))
  | [], a, b => by simp
  | c :: rest, a, b => by
    have ih := conCounts_foldl rest
    by_cases h1 : c.kind = "T"
    · have h2 : c.kind ≠ "F" := by rw [h1]; decide
      simp [List.foldl_cons, h1, h2, ih (a + 1) b, List.countP_cons]
      omega
    · by_cases h2 : c.kind = "F"
      · simp [List.foldl_cons, h1, h2, ih a (b + 1), List.countP_cons]
        omega
      · simp [List.foldl_cons, h1, h2, ih a b, List.countP_cons]

theorem conCounts_eq_countP (L : List Contrast) :
    conCounts L =
      (L.countP (fun c => c.kind == "T"), L.countP (fun c => c.kind == "F")) := by
  rw [conCounts, conCounts_foldl]
  simp

/-- The two kind predicates are mutually exclusive, so the two counts
never exceed the number of contrasts together. -/
theorem countP_T_add_countP_F_le :
    ∀ (L : List Contrast),
      L.countP (fun c => c.kind == "T") + L.countP (fun c => c.kind == "F") ≤
        L.length
  | [] => by simp
  | c :: rest => by
    have ih := countP_T_add_countP_F_le rest
    by_cases h1 : c.kind = "T"
    · have h2 : c.kind ≠ "F" := by rw [h1]; decide
      simp [List.countP_cons, h1, h2]
      omega
    · by_cases h2 : c.kind = "F" <;> simp [List.countP_cons, h1, h2] <;> omega

/-- A contrast of unknown kind makes the T/F counts strictly smaller
than the number of contrasts. -/
theorem countP_T_add_countP_F_lt (L : List Contrast) (con : Contrast)
    (hmem : con ∈ L) (h1 : con.kind ≠ "T") (h2 : con.kind ≠ "F") :
    L.countP (fun c => c.kind == "T") + L.countP (fun c => c.kind == "F") <
      L.length := by
  induction L with
  | nil => cases hmem
  | cons c rest ih =>
    rcases List.mem_cons.mp hmem with rfl | htail
    · have hle := countP_T_add_countP_F_le rest
      simp [List.countP_cons, h1, h2]
      omega
    · have hlt := ih htail
      by_cases hc1 : c.kind = "T"
      · have hc2 : c.kind ≠ "F" := by rw [hc1]; decide
        simp [List.countP_cons, hc1, hc2]
        omega
      · by_cases hc2 : c.kind = "F" <;>
          simp [List.countP_cons, hc1, hc2] <;> omega

/-! ### Prologs in the contrast passes -/

theorem countP_isProlog_contrastElems (evname : List String) (ctype : String)
    (cnum : ℕ) (con : Contrast) :
    (contrastElems evname ctype cnum con).countP isProlog = 0 := by
  apply List.countP_eq_zero.mpr
  intro e he
  obtain ⟨b, v, rfl⟩ := mem_contrastElems_shape evname ctype cnum con e he
  simp [isProlog]

theorem countP_isProlog_contrastPassFrom (evname : List String)
    (ctype : String) :
    ∀ (L : List Contrast) (j : ℕ),
      (contrastPassFrom evname ctype j L).countP isProlog = L.length
  | [], _ => by simp [contrastPassFrom]
  | con :: rest, j => by
    rw [contrastPassFrom, List.countP_append, List.countP_cons,
      countP_isProlog_contrastElems,
      countP_isProlog_contrastPassFrom evname ctype rest (j + 1)]
    simp [isProlog]
    omega

/-- The prolog for the contrast at 0-based position `k` (counting from
an enumeration offset `jj`) is emitted in each pass. -/
theorem prolog_mem_contrastPassFrom (evname : List String) (ctype : String) :
    ∀ (L : List Contrast) (jj k : ℕ) (con : Contrast),
      L[k]? = some con →
      Elem.contrastProlog (jj + k + 1) ctype con.name ∈
        contrastPassFrom evname ctype jj L
  | [], _, k, con, h => by simp at h
  | c :: rest, jj, 0, con, h => by
    have hc : c = con := by simpa using h
    subst hc
    rw [contrastPassFrom]
    exact List.mem_append.mpr (Or.inl (List.mem_cons_self _ _))
  | c :: rest, jj, k + 1, con, h => by
    have ih := prolog_mem_contrastPassFrom evname ctype rest (jj + 1) k con
      (by simpa using h)
    have harith : jj + 1 + k + 1 = jj + (k + 1) + 1 := by omega
    rw [harith] at ih
    rw [contrastPassFrom]
    exact List.mem_append.mpr (Or.inr ih)

/-! ### Concrete fixtures used by witnesses and counterexamples -/

/-- A T contrast giving weight 2 to EV `A`. -/
def conW : Contrast := ⟨"c1", "T", ["A"], [2]⟩

/-- A contrast of unknown kind. -/
def conU : Contrast := ⟨"u", "X", [], []⟩

/-- A condition with two onsets sharing one duration. -/
def condW : Cond := ⟨"A", [0, 10], [2]⟩

/-- A condition with one duration per onset. -/
def condW2 : Cond := ⟨"B", [5, 10], [3, 7]⟩

/-- A regressor with two timepoint values. -/
def regW : Regress := ⟨"r", [5, 6]⟩

/-- A run with two conditions `A` and `B` and no regressors. -/
def runinfoAB : RunInfo := ⟨⟨"A", [0], [1]⟩ :: [⟨"B", [0], [1]⟩], [], 0, ["f.nii"]⟩

/-- A run whose only condition carries a user-chosen name ending in
`TD`. -/
def runinfoTD : RunInfo := ⟨[⟨"fooTD", [0], [1]⟩], [], 0, ["f.nii"]⟩

/-- Inputs with the `register` trait left undefined. -/
def inputsNoReg : Inputs :=
  { interscan_interval := 3
    session_info := [runinfoAB]
    bases_key := "dgamma"
    bases_derivs := false
    model_serial_correlations := none
    contrasts := []
    register := none
    reg_image := none
    reg_dof := 0 }

/-! ### The claims -/

/-- C1: the contrast section consists of the header followed by one
`"real"` pass and then one `"orig"` pass over the contrasts; in the
`"real"` pass every EV name in allocation order gets exactly one weight
element (so the row has one element per EV), while in the `"orig"` pass
the retained columns are exactly the names not ending in `'TD'`, so no
emitted `"orig"` weight element corresponds to a derivative-suffixed EV
name. -/
theorem c1_contrast_rows_real_then_orig (evname : List String)
    (contrasts : List Contrast) (cnum : ℕ) (con : Contrast) :
    contrastSection evname contrasts =
      Elem.contrastHeader ::
        (contrastPassFrom evname "real" 0 contrasts ++
          contrastPassFrom evname "orig" 0 contrasts) ∧
    retainedCols evname "real" = evname ∧
    contrastElems evname "real" cnum con =
      (List.enumFrom 0 evname).map
        (fun kn => Elem.contrastElement cnum (kn.1 + 1) "real" (conVal con kn.2)) ∧
    (contrastElems evname "real" cnum con).length = evname.length ∧
    retainedCols evname "orig" =
      evname.filter (fun name => !(pyEndsWith name "TD")) ∧
    contrastElems evname "orig" cnum con =
      (List.enumFrom 0 (retainedCols evname "orig")).map
        (fun kn => Elem.contrastElement cnum (kn.1 + 1) "orig" (conVal con kn.2)) ∧
    (retainedCols evname "orig").countP (fun name => pyEndsWith name "TD") = 0 ∧
    (contrastPassFrom evname "real" 0 contrasts).countP isProlog =
      contrasts.length ∧
    (contrastPassFrom evname "orig" 0 contrasts).countP isProlog =
      contrasts.length := by
  refine ⟨rfl, retainedCols_real evname, ?_, ?_,
    retainedCols_orig evname, contrastElems_eq_map evname "orig" cnum con, ?_,
    countP_isProlog_contrastPassFrom evname "real" contrasts 0,
    countP_isProlog_contrastPassFrom evname "orig" contrasts 0⟩
  · rw [contrastElems_eq_map, retainedCols_real]
  · rw [contrastElems_length, retainedCols_real]
  · apply List.countP_eq_zero.mpr
    intro name hmem
    rw [retainedCols_orig] at hmem
    have := List.of_mem_filter hmem
    simp only [Bool.not_eq_true'] at this
    simp [this]

/-- C4: the weight element emitted for a retained column carries the
contrast's declared weight when the column name is in the contrast's
EV-name list (looked up at its first occurrence) and `0.0` when the
contrast does not mention the name. -/
theorem c4_weight_roundtrip (evname : List String) (ctype : String)
    (cnum k : ℕ) (con : Contrast) (name : String)
    (hk : (retainedCols evname ctype)[k]? = some name) :
    (contrastElems evname ctype cnum con)[k]? =
      some (Elem.contrastElement cnum (k + 1) ctype (conVal con name)) ∧
    (name ∉ con.conds → conVal con name = 0) ∧
    (∀ w, name ∈ con.conds →
      con.weights[List.indexOf name con.conds]? = some w →
      conVal con name = w) := by
  refine ⟨?_, ?_, ?_⟩
  · rw [contrastElems_eq_map, List.getElem?_map, List.getElem?_enumFrom, hk]
    simp
  · intro h
    simp [conVal, h]
  · intro w hmem hw
    rw [conVal, if_pos hmem, List.getD_eq_getElem?_getD, hw]
    rfl

/-- Witness for C4 at a concrete contrast and EV list. -/
theorem c4_weight_roundtrip_witness :
    (contrastElems ["A", "B"] "real" 1 conW)[0]? =
      some (Elem.contrastElement 1 1 "real" (conVal conW "A")) ∧
    conVal conW "A" = 2 ∧ conVal conW "B" = 0 := by
  refine ⟨?_, ?_, ?_⟩
  · exact (c4_weight_roundtrip ["A", "B"] "real" 1 0 conW "A" (by decide)).1
  · exact (c4_weight_roundtrip ["A", "B"] "real" 1 0 conW "A" (by decide)).2.2
      2 (by decide) (by decide)
  · exact (c4_weight_roundtrip ["A", "B"] "real" 1 1 conW "B" (by decide)).2.1
      (by decide)

/-- C5: the difference between the real and primary EV counts returned
for a run equals the number of conditions exactly when the derivative
flag is set and is zero otherwise; regressors (counted in the primary
total) never contribute derivative EVs. -/
theorem c5_ev_count_difference (runidx usetd : ℕ) (contrasts : List Contrast)
    (runinfo : RunInfo) :
    (createEvFiles runidx usetd contrasts runinfo).1.2 -
      (createEvFiles runidx usetd contrasts runinfo).1.1 =
      (if usetd ≠ 0 then runinfo.cond.length else 0) ∧
    (createEvFiles runidx usetd contrasts runinfo).1.1 =
      runinfo.cond.length + runinfo.regress.length := by
  have h0 := evState_numEvs0 runidx usetd runinfo
  have h1 := evState_numEvs1 runidx usetd runinfo
  constructor
  · simp only [createEvFiles, h0, h1]
    by_cases hu : usetd ≠ 0
    · simp [hu]
      omega
    · simp [hu]
  · simp only [createEvFiles, h0]

/-- C6: a condition's timing file has one `onset duration amplitude`
line per onset with amplitude fixed at 1, the duration being the shared
`durations[0]` when one duration is given and `durations[k]` for line
`k` when one duration per onset is given; a regressor's timing file has
exactly one single-field line per timepoint value. -/
theorem c6_timing_file_lines (c : Cond) (reg : Regress) (k : ℕ) :
    (c.duration.length = 1 → ∀ o, c.onset[k]? = some o →
      (createEvFile (condEvinfo c))[k]? =
        some (EvLine.fields3 o (c.duration.getD 0 0) 1)) ∧
    (c.duration.length = c.onset.length → ∀ o d,
      c.onset[k]? = some o → c.duration[k]? = some d →
      (createEvFile (condEvinfo c))[k]? = some (EvLine.fields3 o d 1)) ∧
    (createEvFile (condEvinfo c)).length = c.onset.length ∧
    createEvFile (regressEvinfo reg) = reg.val.map EvLine.fields1 := by
  have hget : ∀ o, c.onset[k]? = some o →
      (createEvFile (condEvinfo c))[k]? =
        some (if c.duration.length > 1 then
          EvLine.fields3 o (c.duration.getD k 0) 1
        else EvLine.fields3 o (c.duration.getD 0 0) 1) := by
    intro o ho
    rw [createEvFile, condEvinfo, List.map_map, List.getElem?_map,
      List.getElem?_enum, ho]
    by_cases hd : c.duration.length > 1 <;>
      simp [hd]
  refine ⟨?_, ?_, ?_, ?_⟩
  · intro h1 o ho
    rw [hget o ho, if_neg (by omega)]
  · intro hlen o d ho hd
    by_cases hgt : c.duration.length > 1
    · rw [hget o ho, if_pos hgt, List.getD_eq_getElem?_getD, hd]
      rfl
    · have hk0 : k = 0 := by
        have hk := (List.getElem?_eq_some.mp ho).1
        omega
      subst hk0
      rw [hget o ho, if_neg hgt, List.getD_eq_getElem?_getD, hd]
      rfl
  · simp [createEvFile, condEvinfo, List.enumFrom_length, List.enum]
  · rw [createEvFile, regressEvinfo, List.map_map]
    exact List.map_congr_left (fun a _ => rfl)

/-- Witness for C6 at concrete conditions and a regressor. -/
theorem c6_timing_file_lines_witness :
    (createEvFile (condEvinfo condW))[0]? =
      some (EvLine.fields3 0 (condW.duration.getD 0 0) 1) ∧
    (createEvFile (condEvinfo condW2))[1]? = some (EvLine.fields3 10 7 1) ∧
    createEvFile (regressEvinfo regW) = regW.val.map EvLine.fields1 := by
  refine ⟨?_, ?_, ?_⟩
  · exact (c6_timing_file_lines condW regW 0).1 (by decide) 0 (by decide)
  · exact (c6_timing_file_lines condW2 regW 1).2.1 (by decide) 10 7
      (by decide) (by decide)
  · exact (c6_timing_file_lines condW regW 0).2.2.2

/-- C8: the contrast-exclusivity mask holds exactly
`n * (n - 1)` elements for `n` contrasts (hence none for `n ≤ 1`), its
header and footer are emitted even for an empty contrast list, as is the
contrast-section header; an empty contrast list yields the bracketed
empty sections rather than an error. -/
theorem c8_mask_pair_count (contrasts : List Contrast) (evname : List String) :
    (maskSection contrasts).countP isMaskElement =
      contrasts.length * (contrasts.length - 1) ∧
    maskSection [] = [Elem.maskHeader, Elem.maskFooter] ∧
    Elem.maskHeader ∈ maskSection contrasts ∧
    Elem.maskFooter ∈ maskSection contrasts ∧
    contrastSection evname [] = [Elem.contrastHeader] ∧
    Elem.contrastHeader ∈ contrastSection evname contrasts := by
  refine ⟨countP_isMaskElement_maskSection contrasts, rfl, ?_, ?_, rfl, ?_⟩
  · exact List.mem_cons_self _ _
  · rw [maskSection]
    exact List.mem_cons.mpr (Or.inr (List.mem_append.mpr
      (Or.inr (List.mem_singleton.mpr rfl))))
  · exact List.mem_cons_self _ _

/-- C9: within a run's generated text the orthogonalization directives
number exactly `num_evs_primary * (num_evs_primary + 1)`, one directive
for every ordered pair `(i, j)` with `1 ≤ i ≤ num_evs_primary` and
`0 ≤ j ≤ num_evs_primary` and none outside that range, where
`num_evs_primary` counts one EV per condition or regressor. -/
theorem c9_ortho_table_complete (runidx usetd : ℕ)
    (contrasts : List Contrast) (runinfo : RunInfo) (i j : ℕ) :
    (createEvFiles runidx usetd contrasts runinfo).2.1.countP isOrtho =
      (createEvFiles runidx usetd contrasts runinfo).1.1 *
        ((createEvFiles runidx usetd contrasts runinfo).1.1 + 1) ∧
    (createEvFiles runidx usetd contrasts runinfo).2.1.count (Elem.ortho i j) =
      (if 1 ≤ i ∧ i ≤ (createEvFiles runidx usetd contrasts runinfo).1.1 ∧
          j ≤ (createEvFiles runidx usetd contrasts runinfo).1.1
        then 1 else 0) ∧
    (createEvFiles runidx usetd contrasts runinfo).1.1 =
      runinfo.cond.length + runinfo.regress.length := by
  have hst : ((evState runidx usetd runinfo).txt).countP isOrtho = 0 :=
    evState_txt_countP runidx usetd runinfo isOrtho
      (fun _ _ _ _ => rfl) (fun _ _ _ => rfl)
  have hcs : (contrastSection (evState runidx usetd runinfo).evname
      contrasts).countP isOrtho = 0 := by
    apply List.countP_eq_zero.mpr
    intro e he
    rcases mem_contrastSection_shape _ _ e he with rfl | ⟨a, c, b, rfl⟩ |
      ⟨a, b, c, v, rfl⟩ <;> simp [isOrtho]
  have hms : (maskSection contrasts).countP isOrtho = 0 := by
    apply List.countP_eq_zero.mpr
    intro e he
    rcases mem_maskSection_shape _ e he with rfl | rfl | ⟨a, b, rfl⟩ <;>
      simp [isOrtho]
  have hnotmem : ∀ (l : List Elem), l.countP isOrtho = 0 →
      Elem.ortho i j ∉ l := by
    intro l hl hmem
    have := List.countP_eq_zero.mp hl _ hmem
    simp [isOrtho] at this
  refine ⟨?_, ?_, evState_numEvs0 runidx usetd runinfo⟩
  · simp only [createEvFiles, List.countP_append, hst, hcs, hms,
      countP_isOrtho_orthoSection]
    omega
  · simp only [createEvFiles, List.count_append,
      List.count_eq_zero_of_not_mem (hnotmem _ hst),
      List.count_eq_zero_of_not_mem (hnotmem _ hcs),
      List.count_eq_zero_of_not_mem (hnotmem _ hms),
      count_ortho_orthoSection]
    omega

/-- C7: a contrast whose kind is neither `'T'` nor `'F'` does not abort
processing: the header counts equal the number of `'T'` and `'F'`
contrasts respectively and together fall short of the number of
contrasts, while both body passes still emit one prolog per contrast —
including one for the unknown-kind contrast — and its `"real"` row still
has one weight element per EV. -/
theorem c7_unknown_contrast_kind (contrasts : List Contrast)
    (evname : List String) (j : ℕ) (con : Contrast)
    (hj : contrasts[j]? = some con)
    (hT : con.kind ≠ "T") (hF : con.kind ≠ "F") :
    (conCounts contrasts).1 = contrasts.countP (fun c => c.kind == "T") ∧
    (conCounts contrasts).2 = contrasts.countP (fun c => c.kind == "F") ∧
    (conCounts contrasts).1 + (conCounts contrasts).2 < contrasts.length ∧
    (contrastPassFrom evname "real" 0 contrasts).countP isProlog =
      contrasts.length ∧
    (contrastPassFrom evname "orig" 0 contrasts).countP isProlog =
      contrasts.length ∧
    Elem.contrastProlog (j + 1) "real" con.name ∈
      contrastSection evname contrasts ∧
    Elem.contrastProlog (j + 1) "orig" con.name ∈
      contrastSection evname contrasts ∧
    (contrastElems evname "real" (j + 1) con).length = evname.length := by
  have hmem : con ∈ contrasts := by
    obtain ⟨hlt, hget⟩ := List.getElem?_eq_some.mp hj
    exact hget ▸ List.getElem_mem hlt
  have hreal := prolog_mem_contrastPassFrom evname "real" contrasts 0 j con hj
  have horig := prolog_mem_contrastPassFrom evname "orig" contrasts 0 j con hj
  rw [Nat.zero_add] at hreal horig
  refine ⟨by rw [conCounts_eq_countP], by rw [conCounts_eq_countP], ?_,
    countP_isProlog_contrastPassFrom evname "real" contrasts 0,
    countP_isProlog_contrastPassFrom evname "orig" contrasts 0,
    ?_, ?_, ?_⟩
  · rw [conCounts_eq_countP]
    exact countP_T_add_countP_F_lt contrasts con hmem hT hF
  · rw [contrastSection]
    exact List.mem_cons.mpr (Or.inr (List.mem_append.mpr (Or.inl hreal)))
  · rw [contrastSection]
    exact List.mem_cons.mpr (Or.inr (List.mem_append.mpr (Or.inr horig)))
  · rw [contrastElems_length, retainedCols_real]

/-- Witness for C7 with a single unknown-kind contrast. -/
theorem c7_unknown_contrast_kind_witness :
    (conCounts [conU]).1 + (conCounts [conU]).2 < 1 ∧
    Elem.contrastProlog 1 "real" "u" ∈ contrastSection ["A"] [conU] ∧
    Elem.contrastProlog 1 "orig" "u" ∈ contrastSection ["A"] [conU] := by
  have h := c7_unknown_contrast_kind [conU] ["A"] 0 conU rfl
    (by decide) (by decide)
  exact ⟨h.2.2.1, h.2.2.2.2.2.1, h.2.2.2.2.2.2.1⟩

/-- C10: the derivative test of the `"orig"` pass is purely textual on
the EV name: with derivative modelling off, the EV names are exactly the
user-declared condition and regressor names, and any of them that ends
in `'TD'` is dropped from the retained columns of every `"orig"` row,
making that row strictly shorter than the EV list while the `"real"`
row still covers every EV. -/
theorem c10_user_td_name_skipped (runidx : ℕ) (runinfo : RunInfo)
    (name : String) (cnum : ℕ) (con : Contrast)
    (hmem : name ∈ (evState runidx 0 runinfo).evname)
    (hTD : pyEndsWith name "TD" = true) :
    (evState runidx 0 runinfo).evname =
      runinfo.cond.map Cond.name ++ runinfo.regress.map Regress.name ∧
    name ∉ retainedCols (evState runidx 0 runinfo).evname "orig" ∧
    (contrastElems (evState runidx 0 runinfo).evname "orig" cnum con).length <
      (evState runidx 0 runinfo).evname.length ∧
    (contrastElems (evState runidx 0 runinfo).evname "real" cnum con).length =
      (evState runidx 0 runinfo).evname.length := by
  refine ⟨by rw [evState_evname, evnames_zero], ?_, ?_, ?_⟩
  · rw [retainedCols_orig]
    intro hc
    have := List.of_mem_filter hc
    rw [hTD] at this
    exact absurd this (by simp)
  · rw [contrastElems_length, retainedCols_orig]
    exact List.length_filter_lt_length_iff_exists.mpr
      ⟨name, hmem, by simp [hTD]⟩
  · rw [contrastElems_length, retainedCols_real]

/-- Witness for C10 with a condition the user named `fooTD` and
derivative modelling off. -/
theorem c10_user_td_name_skipped_witness :
    "fooTD" ∉ retainedCols (evState 0 0 runinfoTD).evname "orig" ∧
    (contrastElems (evState 0 0 runinfoTD).evname "orig" 1 conW).length <
      (evState 0 0 runinfoTD).evname.length := by
  have h := c10_user_td_name_skipped 0 runinfoTD "fooTD" 1 conW
    (by decide) (by decide)
  exact ⟨h.2.1, h.2.2.1⟩

/-- C2 (defect evaluation): with the temporal-derivative flag set, the
generation pass numbers `ev_B_0_3.txt` (the `'TD'` entry appended to
`evname` advances the ordinal) while the re-derivation in
`_list_outputs` yields `ev_B_0_2.txt`, so the re-derived paths differ
from the written ones; with the flag unset the two sides agree for every
run. -/
theorem c2_ev_paths_diverge_under_derivatives :
    (createEvFiles 0 1 [] runinfoAB).2.2.map Prod.fst =
      ["ev_A_0_1.txt", "ev_B_0_3.txt"] ∧
    listEvFiles 0 runinfoAB = ["ev_A_0_1.txt", "ev_B_0_2.txt"] ∧
    (createEvFiles 0 1 [] runinfoAB).2.2.map Prod.fst ≠
      listEvFiles 0 runinfoAB ∧
    ∀ (runno : ℕ) (contrasts : List Contrast) (runinfo : RunInfo),
      (createEvFiles runno 0 contrasts runinfo).2.2.map Prod.fst =
        listEvFiles runno runinfo := by
  refine ⟨by decide, by decide, by decide, ?_⟩
  intro runno contrasts runinfo
  have h := evState_files_zero runno runinfo
  simpa [createEvFiles] using h

/-- C3 (defect evaluation): with the `register` trait left undefined the
driver hits the unassigned registration local while filling the first
header and raises instead of completing; setting `register` to `False`
is what actually produces the disabled-registration header. -/
theorem c3_register_unset_raises :
    runInterface (fun _ => 100) inputsNoReg =
      Except.error "UnboundLocalError: register referenced before assignment" ∧
    (runInterface (fun _ => 100)
        { inputsNoReg with register := some false }).toOption.map
      (fun docs => docs.map (fun d =>
        (d.file, d.header.register, d.header.reg_image, d.header.reg_dof))) =
      some [("run0.fsf", 0, "", 0)] :=
  ⟨rfl, rfl⟩

end Level1Design
